import Mathlib

set_option autoImplicit false

/-!
Shallow embedding of `src/scraper.py` (a Google-search listing scraper).

Modelling conventions:
* Strings are Lean `String`s; character-level work happens on `String.toList`.
* `PHONE_REGEX` (line 23) is embedded as a backtracking matcher specialised to
  the pattern `(\+?\d{1,3}[-.\s]?\(?\d{1,4}\)?[-.\s]?\d{1,4}[-.\s]?\d{1,9})`,
  producing candidate remainders in the Python regex engine's backtracking
  order (greedy quantifiers try longest first, earlier components backtrack
  last); `search` scans start positions left to right.
* The coordinate regex `@(-?\d+\.\d+),(-?\d+\.\d+)` (line 52) is deterministic
  (each `\d+` is followed by a mandatory non-digit), so it is embedded directly.
* BeautifulSoup parsing is external to the repository; a parsed result block is
  abstracted as an `Item` carrying the text of its first `h3` (if any), the
  text of its first `span` (if any), its flattened text content, the `href` of
  its first maps link (if any) and the `src` of its first `img` (if any).
* The browser/network layer is external; one retry attempt is abstracted as an
  `AttemptOutcome`: either `ok itemsOn` (the whole `try` body succeeds, page
  `k` parsing to the item list `itemsOn k`) or `fail j itemsOn` (an exception
  is raised after the first `j` pages were fully processed).
-/

namespace Scraper

/-- MAX_PAGES constant (line 18). -/
def MAX_PAGES : Nat := 3

/-- RETRIES constant (line 20). -/
def RETRIES : Nat := 3

/-- Python regex whitespace class `\s`, ASCII range. -/
def isSpaceChar (c : Char) : Bool :=
  c = ' ' || c = '\t' || c = '\n' || c = '\r' || c = '\x0b' || c = '\x0c'

/-- The separator class `[-.\s]` used inside PHONE_REGEX. -/
def isSepChar (c : Char) : Bool :=
  c = '-' || c = '.' || isSpaceChar c

/-- Python `str.strip()`: drop leading and trailing whitespace. -/
def pyStrip (s : String) : String :=
  String.mk (((s.toList.dropWhile isSpaceChar).reverse.dropWhile isSpaceChar).reverse)

/-- Consume exactly `n` leading digit characters, returning the remainder. -/
def dropDigits : Nat → List Char → Option (List Char)
  | 0, s => some s
  | _ + 1, [] => none
  | n + 1, c :: rest => if c.isDigit then dropDigits n rest else none

/-- Remainders after a greedy bounded digit quantifier `\d{lo,j}` consumes
between `lo` and `j` leading digits, longest first (backtracking order). -/
def digitCands (lo : Nat) : Nat → List Char → List (List Char)
  | 0, s => if lo = 0 then [s] else []
  | j + 1, s =>
    if j + 1 < lo then []
    else (dropDigits (j + 1) s).toList ++ digitCands lo j s

/-- Remainders for an optional single character of class `p` (`p?`), consuming
first (greedy order). -/
def optCands (p : Char → Bool) : List Char → List (List Char)
  | [] => [[]]
  | c :: rest => if p c then [rest, c :: rest] else [c :: rest]

/-- Remainders of all ways PHONE_REGEX can match at the start of `s`, in the
backtracking order of the Python regex engine. -/
def phoneCands (s : List Char) : List (List Char) :=
  (optCands (fun c => c = '+') s).flatMap fun s1 =>
  (digitCands 1 3 s1).flatMap fun s2 =>
  (optCands isSepChar s2).flatMap fun s3 =>
  (optCands (fun c => c = '(') s3).flatMap fun s4 =>
  (digitCands 1 4 s4).flatMap fun s5 =>
  (optCands (fun c => c = ')') s5).flatMap fun s6 =>
  (optCands isSepChar s6).flatMap fun s7 =>
  (digitCands 1 4 s7).flatMap fun s8 =>
  (optCands isSepChar s8).flatMap fun s9 =>
  digitCands 1 9 s9

/-- The substring PHONE_REGEX matches at the start of `s`, if any (first
candidate in backtracking order, as Python returns). -/
def phoneMatchAt (s : List Char) : Option (List Char) :=
  (phoneCands s).head?.map fun rem => s.take (s.length - rem.length)

/-- Scan of `PHONE_REGEX.search`: try each start position left to right. -/
def phoneSearchL : List Char → Option (List Char)
  | [] => none
  | c :: rest =>
    match phoneMatchAt (c :: rest) with
    | some m => some m
    | none => phoneSearchL rest

/-- Embedding of `PHONE_REGEX.search(text)`, returning `match.group(1)`. -/
def PHONE_REGEX_search (t : String) : Option String :=
  (phoneSearchL t.toList).map String.mk

/-- Number of digit characters in a character list. -/
def digitCount (s : List Char) : Nat :=
  (s.filter Char.isDigit).length

/-- Parse `\d+\.\d+` at the start of `s` (deterministic: each `\d+` is greedy
and followed by a mandatory non-digit character or the pattern end), returning
the matched characters and the remainder. -/
def parseUnsigned (s : List Char) : Option (List Char × List Char) :=
  if (s.takeWhile Char.isDigit).isEmpty then none
  else
    match s.dropWhile Char.isDigit with
    | '.' :: s3 =>
      if (s3.takeWhile Char.isDigit).isEmpty then none
      else
        some (s.takeWhile Char.isDigit ++ '.' :: s3.takeWhile Char.isDigit,
              s3.dropWhile Char.isDigit)
    | _ => none

/-- Parse `-?\d+\.\d+` at the start of `s`: if the optional `-` is consumed
but no digit follows, backtracking to the empty sign also fails, since `-` is
not a digit. -/
def parseNum (s : List Char) : Option (List Char × List Char) :=
  match s with
  | '-' :: t =>
    (match parseUnsigned t with
     | some (n, r) => some ('-' :: n, r)
     | none => none)
  | _ => parseUnsigned s

/-- Match `(-?\d+\.\d+),(-?\d+\.\d+)` at the start of `s` (the part of the
coordinate regex after the `@`), returning the two capture groups. -/
def coordMatchAt (s : List Char) : Option (List Char × List Char) :=
  match parseNum s with
  | none => none
  | some (a, r1) =>
    match r1 with
    | ',' :: r2 =>
      match parseNum r2 with
      | none => none
      | some (b, _) => some (a, b)
    | _ => none

/-- Scan of `re.search` for `@(-?\d+\.\d+),(-?\d+\.\d+)`: a match must start
at an `@`, positions are tried left to right. -/
def coordSearch : List Char → Option (List Char × List Char)
  | [] => none
  | c :: rest =>
    if c = '@' then
      match coordMatchAt rest with
      | some ab => some ab
      | none => coordSearch rest
    else coordSearch rest

/-- Embedding of `extract_coordinates` (lines 46-55). -/
def extract_coordinates (url : String) : Option String × Option String :=
  match coordSearch url.toList with
  | some (a, b) => (some (String.mk a), some (String.mk b))
  | none => (none, none)

/-- Character class `[a-z0-9\-]` kept by the slug substitution (line 169). -/
def isSlugChar (c : Char) : Bool :=
  ('a' ≤ c && c ≤ 'z') || c.isDigit || c = '-'

/-- One step of `re.sub(r'[^a-z0-9\-]+', '-', ·)`: the Bool records whether we
are inside a run of replaced characters (so the run collapses to one `-`). -/
def slugStep (acc : List Char × Bool) (c : Char) : List Char × Bool :=
  if isSlugChar c then (acc.1 ++ [c], false)
  else if acc.2 then acc
  else (acc.1 ++ ['-'], true)

/-- Embedding of `safe_name = re.sub(r'[^a-z0-9\-]+', '-', query.lower())`
(line 169). -/
def safeName (query : String) : String :=
  String.mk ((query.toList.map Char.toLower).foldl slugStep ([], false)).1

/-- Output filename `f"{safe_name}-search-{now}.json"` (line 171), with the
timestamp string as a parameter. -/
def fileName (query now : String) : String :=
  safeName query ++ "-search-" ++ now ++ ".json"

/-- `os.path.join(DATA_DIR, filename)` with `DATA_DIR = "data"` (line 172). -/
def filePath (fn : String) : String :=
  "data/" ++ fn

/-- Offset URL built for page `pageNum` (lines 87-92): `start = page_num * 20`
and spaces in the query become `+`. -/
def pageURL (query : String) (pageNum : Nat) : String :=
  "https://www.google.com/search?q="
    ++ String.mk (query.toList.map fun c => if c = ' ' then '+' else c)
    ++ "&udm=1&start=" ++ toString (pageNum * 20)

/-- Abstraction of one parsed result block (`item`): the text of the first
`h3` (if present), of the first `span` (if present), the flattened text
content, the `href` of the first maps link and the `src` of the first image. -/
structure Item where
  h3 : Option String
  span : Option String
  text : String
  mapsHref : Option String
  imgSrc : Option String
deriving DecidableEq, Repr

/-- One output record (the dict built at lines 150-157). -/
structure Entry where
  name : String
  phone : Option String
  latitude : Option String
  longitude : Option String
  image : Option String
  source_page : Nat
deriving DecidableEq, Repr

/-- `item.select_one("h3") or item.select_one("span")` (line 123): BeautifulSoup
tags are truthy, so the `h3` is preferred whenever it exists. -/
def headTag (item : Item) : Option String :=
  match item.h3 with
  | some t => some t
  | none => item.span

/-- Field extraction for one item (lines 121-157): heading text with
truncation at 50 characters, first phone-regex match stripped, coordinates
from the maps link, image source, 1-based page stamp. Returns `none` when the
item has neither an `h3` nor a `span` (the `continue` at line 125). -/
def extractEntry (pageNum : Nat) (item : Item) : Option Entry :=
  match headTag item with
  | none => none
  | some raw =>
    let name := if raw.length > 50 then raw.take 50 ++ "..." else raw
    let phone := (PHONE_REGEX_search item.text).map pyStrip
    let latlon :=
      match item.mapsHref with
      | some href => extract_coordinates href
      | none => (none, none)
    some { name := name, phone := phone, latitude := latlon.1,
           longitude := latlon.2, image := item.imgSrc,
           source_page := pageNum + 1 }

/-- The guarded append (lines 159-163): skip the candidate if a stored record
agrees with it on both `name` and `phone`, or if its name is empty
(`if name:`). -/
def processItemEntry (results : List Entry) (entry : Entry) : List Entry :=
  if results.any fun r => r.name == entry.name && r.phone == entry.phone then
    results
  else if entry.name == "" then
    results
  else
    results ++ [entry]

/-- Appending one item to the accumulated results (lines 121-163): skip items
with no heading tag, otherwise run the guarded append. -/
def processItem (results : List Entry) (pageNum : Nat) (item : Item) : List Entry :=
  match extractEntry pageNum item with
  | none => results
  | some entry => processItemEntry results entry

/-- The inner `for item in items` loop (line 121). -/
def processPage (results : List Entry) (pageNum : Nat) (items : List Item) : List Entry :=
  items.foldl (fun acc it => processItem acc pageNum it) results

/-- The pagination loop `for page_num in range(0, MAX_PAGES)` (line 86) of a
fully successful attempt, where page `k` parses to the items `itemsOn k`. -/
def runPages (results : List Entry) (itemsOn : Nat → List Item) : List Entry :=
  (List.range MAX_PAGES).foldl (fun acc k => processPage acc k (itemsOn k)) results

/-- The pagination loop of an attempt that raises an exception after fully
processing its first `j` pages. -/
def runPagesUpTo (results : List Entry) (itemsOn : Nat → List Item) (j : Nat) : List Entry :=
  (List.range (min j MAX_PAGES)).foldl (fun acc k => processPage acc k (itemsOn k)) results

/-- Outcome of one retry attempt: the whole `try` body succeeds with page `k`
parsing to `itemsOn k`, or an exception is raised after `pagesDone` pages. -/
inductive AttemptOutcome where
  | ok (itemsOn : Nat → List Item)
  | fail (pagesDone : Nat) (itemsOn : Nat → List Item)

/-- The retry loop body (lines 66-183): on success the accumulated list is
saved and returned with its filename; on an exception the attempt's partial
work is kept in `results` (which is NOT reset; it is initialised once at line
59) and the loop continues. Result: (returned list, returned filename,
optionally the written file as path and contents). -/
def scrapeGo (query now : String) : List AttemptOutcome → List Entry →
    List Entry × String × Option (String × List Entry)
  | [], _ => ([], "failed", none)
  | AttemptOutcome.ok f :: _, results =>
    let r := runPages results f
    let fn := fileName query now
    (r, fn, some (filePath fn, r))
  | AttemptOutcome.fail j f :: rest, results =>
    scrapeGo query now rest (runPagesUpTo results f j)

/-- Embedding of `scrape_google_search` (lines 58-185): at most RETRIES
attempts, starting from the empty results list; exhaustion returns
`([], "failed")` and writes nothing. -/
def scrape_google_search (query now : String) (outcomes : List AttemptOutcome) :
    List Entry × String × Option (String × List Entry) :=
  scrapeGo query now (outcomes.take RETRIES) []

/-- A URL contains an `@lat,lon` segment: an `@` followed by an optionally
signed decimal, a comma, and another optionally signed decimal. -/
def HasLatLon (u : String) : Prop :=
  ∃ pre sign1 d1 e1 sign2 d2 e2 post : List Char,
    u.toList =
      pre ++ '@' :: (sign1 ++ d1 ++ '.' :: e1 ++ ',' :: (sign2 ++ d2 ++ '.' :: e2 ++ post))
    ∧ (sign1 = [] ∨ sign1 = ['-']) ∧ d1 ≠ [] ∧ d1.all Char.isDigit
    ∧ e1 ≠ [] ∧ e1.all Char.isDigit
    ∧ (sign2 = [] ∨ sign2 = ['-']) ∧ d2 ≠ [] ∧ d2.all Char.isDigit
    ∧ e2 ≠ [] ∧ e2.all Char.isDigit

/-- No two entries of the list agree on both `name` and `phone`. -/
def DistinctNamePhone (l : List Entry) : Prop :=
  l.Pairwise fun a b => ¬(a.name = b.name ∧ a.phone = b.phone)

/-- An item whose only heading tag is an empty span: its candidate entry has
the empty name. -/
def itemEmptyName : Item :=
  { h3 := none, span := some "", text := "", mapsHref := none, imgSrc := none }

/-- An item with an ordinary heading. -/
def itemNamed : Item :=
  { h3 := some "Named Cafe", span := none, text := "", mapsHref := none, imgSrc := none }

/-- The candidate entry extracted from itemEmptyName on page 0. -/
def entryEmptyName : Entry :=
  { name := "", phone := none, latitude := none, longitude := none,
    image := none, source_page := 1 }

/-- The candidate entry extracted from itemNamed on page 0. -/
def entryNamed : Entry :=
  { name := "Named Cafe", phone := none, latitude := none, longitude := none,
    image := none, source_page := 1 }

/-- A page function whose first page holds itemEmptyName and itemNamed. -/
def pageBoth : Nat → List Item :=
  fun k => if k = 0 then [itemEmptyName, itemNamed] else []

/-- An item whose text contains a phone number. -/
def itemCafe : Item :=
  { h3 := some "Cafe One", span := none, text := "Cafe One +212 5 37 77 12 34",
    mapsHref := none, imgSrc := none }

/-- The entry extracted from itemCafe on page 0. -/
def entryCafe : Entry :=
  { name := "Cafe One", phone := some "+212 5 37 77", latitude := none,
    longitude := none, image := none, source_page := 1 }

/-- A page function whose first page holds itemCafe only. -/
def cafePages : Nat → List Item := fun k => if k = 0 then [itemCafe] else []

/-- A page function with no items on any page. -/
def emptyPages : Nat → List Item := fun _ => []

/-- The example maps URL of the spec. -/
def coordURL : String := "https://maps.google.com/maps/place/X/@34.020100,-6.841200,17z"

/-- A 60-character heading. -/
def longHeading : String :=
  "abcdefghijabcdefghijabcdefghijabcdefghijabcdefghijabcdefghij"

/-- An item whose heading is longHeading. -/
def itemLong : Item :=
  { h3 := some longHeading, span := none, text := "", mapsHref := none, imgSrc := none }

/-- The entry extracted from itemLong on page 0: the heading truncated to 50
characters plus the ellipsis marker. -/
def entryLong : Entry :=
  { name := "abcdefghijabcdefghijabcdefghijabcdefghijabcdefghij...",
    phone := none, latitude := none, longitude := none, image := none,
    source_page := 1 }

lemma foldl_app {α β : Type} (g : List α → β → List α)
    (H : ∀ acc x, ∃ t, g acc x = acc ++ t) :
    ∀ (xs : List β) (acc : List α), ∃ t, xs.foldl g acc = acc ++ t := by
  intro xs
  induction xs with
  | nil => intro acc; exact ⟨[], by simp⟩
  | cons x xs ih =>
    intro acc
    obtain ⟨t1, h1⟩ := H acc x
    obtain ⟨t2, h2⟩ := ih (g acc x)
    exact ⟨t1 ++ t2, by rw [List.foldl_cons, h2, h1, List.append_assoc]⟩

lemma foldl_pres {α β : Type} (P : List α → Prop) (g : List α → β → List α) :
    ∀ (xs : List β), (∀ acc x, x ∈ xs → P acc → P (g acc x)) →
      ∀ acc, P acc → P (xs.foldl g acc) := by
  intro xs
  induction xs with
  | nil => intro _ acc h; exact h
  | cons x xs ih =>
    intro H acc h
    exact ih (fun a y hy => H a y (List.mem_cons_of_mem _ hy)) _
      (H acc x (List.mem_cons_self _ _) h)

lemma extractEntry_page {k : Nat} {item : Item} {e : Entry}
    (h : extractEntry k item = some e) : e.source_page = k + 1 := by
  unfold extractEntry at h
  cases hh : headTag item <;> rw [hh] at h
  · exact absurd h (by simp)
  · simp only [Option.some.injEq] at h
    rw [← h]

lemma processItem_none {results : List Entry} {k : Nat} {item : Item}
    (he : extractEntry k item = none) : processItem results k item = results := by
  unfold processItem
  rw [he]

lemma processItem_some {results : List Entry} {k : Nat} {item : Item} {e : Entry}
    (he : extractEntry k item = some e) :
    processItem results k item = processItemEntry results e := by
  unfold processItem
  rw [he]

lemma processItem_dup {results : List Entry} {k : Nat} {item : Item} {e : Entry}
    (he : extractEntry k item = some e)
    (hr : ∃ r ∈ results, r.name = e.name ∧ r.phone = e.phone) :
    processItem results k item = results := by
  rw [processItem_some he]
  unfold processItemEntry
  have hany : (results.any fun r => r.name == e.name && r.phone == e.phone) = true := by
    simp only [List.any_eq_true, Bool.and_eq_true, beq_iff_eq]
    obtain ⟨r, hmem, h1, h2⟩ := hr
    exact ⟨r, hmem, h1, h2⟩
  simp [hany]

lemma processItem_new {results : List Entry} {k : Nat} {item : Item} {e : Entry}
    (he : extractEntry k item = some e) (hname : e.name ≠ "")
    (hr : ∀ r ∈ results, ¬(r.name = e.name ∧ r.phone = e.phone)) :
    processItem results k item = results ++ [e] := by
  rw [processItem_some he]
  unfold processItemEntry
  have hany : (results.any fun r => r.name == e.name && r.phone == e.phone) = false := by
    simp only [List.any_eq_false, Bool.and_eq_true, beq_iff_eq]
    intro r hrm
    have := hr r hrm
    tauto
  have hn : (e.name == "") = false := by
    simp only [beq_eq_false_iff_ne, ne_eq]
    exact hname
  simp [hany, hn]

lemma processItemEntry_cases (results : List Entry) (e : Entry) :
    processItemEntry results e = results ∨ processItemEntry results e = results ++ [e] := by
  unfold processItemEntry
  split
  · exact Or.inl rfl
  · split
    · exact Or.inl rfl
    · exact Or.inr rfl

lemma processItem_app (results : List Entry) (k : Nat) (item : Item) :
    ∃ t, processItem results k item = results ++ t := by
  cases he : extractEntry k item with
  | none => exact ⟨[], by rw [processItem_none he, List.append_nil]⟩
  | some e =>
    rw [processItem_some he]
    rcases processItemEntry_cases results e with h | h
    · exact ⟨[], by rw [h, List.append_nil]⟩
    · exact ⟨[e], h⟩

lemma processItem_mem {results : List Entry} {k : Nat} {item : Item} {e : Entry}
    (h : e ∈ processItem results k item) : e ∈ results ∨ e.source_page = k + 1 := by
  cases he : extractEntry k item with
  | none =>
    rw [processItem_none he] at h
    exact Or.inl h
  | some e0 =>
    rw [processItem_some he] at h
    rcases processItemEntry_cases results e0 with hc | hc <;> rw [hc] at h
    · exact Or.inl h
    · rcases List.mem_append.mp h with h1 | h1
      · exact Or.inl h1
      · right
        rw [List.mem_singleton.mp h1]
        exact extractEntry_page he

lemma processItem_names {results : List Entry} {k : Nat} {item : Item}
    (H : ∀ e ∈ results, e.name ≠ "") :
    ∀ e ∈ processItem results k item, e.name ≠ "" := by
  intro e he
  cases hx : extractEntry k item with
  | none =>
    rw [processItem_none hx] at he
    exact H e he
  | some e0 =>
    rw [processItem_some hx] at he
    unfold processItemEntry at he
    split at he
    · exact H e he
    · split at he
      · exact H e he
      · next hne =>
        rcases List.mem_append.mp he with h1 | h1
        · exact H e h1
        · rw [List.mem_singleton.mp h1]
          intro habs
          exact hne (by simp [habs])

lemma processItem_distinct {results : List Entry} {k : Nat} {item : Item}
    (H : DistinctNamePhone results) : DistinctNamePhone (processItem results k item) := by
  cases hx : extractEntry k item with
  | none =>
    rw [processItem_none hx]
    exact H
  | some e0 =>
    rw [processItem_some hx]
    unfold processItemEntry
    by_cases hdup : (results.any fun r => r.name == e0.name && r.phone == e0.phone) = true
    · simp only [hdup, if_true]
      exact H
    · rw [if_neg hdup]
      by_cases hn : (e0.name == "") = true
      · simp only [hn, if_true]
        exact H
      · rw [if_neg hn]
        have hforall : ∀ r ∈ results, ¬(r.name = e0.name ∧ r.phone = e0.phone) := by
          intro r hrm hc
          apply hdup
          simp only [List.any_eq_true, Bool.and_eq_true, beq_iff_eq]
          exact ⟨r, hrm, hc.1, hc.2⟩
        unfold DistinctNamePhone
        rw [List.pairwise_append]
        refine ⟨H, List.pairwise_singleton _ _, ?_⟩
        intro a ha b hb
        rw [List.mem_singleton.mp hb]
        exact hforall a ha

lemma processPage_app (results : List Entry) (k : Nat) (items : List Item) :
    ∃ t, processPage results k items = results ++ t := by
  have h := foldl_app (fun acc it => processItem acc k it)
    (fun acc it => processItem_app acc k it) items results
  exact h

lemma processPage_mem {results : List Entry} {k : Nat} {items : List Item} {e : Entry}
    (h : e ∈ processPage results k items) : e ∈ results ∨ e.source_page = k + 1 := by
  refine foldl_pres (fun l => ∀ x ∈ l, x ∈ results ∨ x.source_page = k + 1)
    (fun acc it => processItem acc k it) items ?_ results (fun x hx => Or.inl hx) e h
  intro acc it _ hacc x hx
  rcases processItem_mem hx with h1 | h1
  · exact hacc x h1
  · exact Or.inr h1

lemma processPage_names {results : List Entry} {k : Nat} {items : List Item}
    (H : ∀ e ∈ results, e.name ≠ "") :
    ∀ e ∈ processPage results k items, e.name ≠ "" := by
  have h := foldl_pres (fun l => ∀ e ∈ l, e.name ≠ "")
    (fun acc it => processItem acc k it) items
    (fun _ _ _ hacc => processItem_names hacc) results H
  exact h

lemma processPage_distinct {results : List Entry} {k : Nat} {items : List Item}
    (H : DistinctNamePhone results) : DistinctNamePhone (processPage results k items) := by
  have h := foldl_pres DistinctNamePhone
    (fun acc it => processItem acc k it) items
    (fun _ _ _ hacc => processItem_distinct hacc) results H
  exact h

lemma runPages_app (results : List Entry) (f : Nat → List Item) :
    ∃ t, runPages results f = results ++ t := by
  have h := foldl_app (fun acc pg => processPage acc pg (f pg))
    (fun acc pg => processPage_app acc pg (f pg)) (List.range MAX_PAGES) results
  exact h

lemma runPagesUpTo_app (results : List Entry) (f : Nat → List Item) (j : Nat) :
    ∃ t, runPagesUpTo results f j = results ++ t := by
  have h := foldl_app (fun acc pg => processPage acc pg (f pg))
    (fun acc pg => processPage_app acc pg (f pg)) (List.range (min j MAX_PAGES)) results
  exact h

lemma runPages_names {results : List Entry} {f : Nat → List Item}
    (H : ∀ e ∈ results, e.name ≠ "") : ∀ e ∈ runPages results f, e.name ≠ "" := by
  have h := foldl_pres (fun l => ∀ e ∈ l, e.name ≠ "")
    (fun acc pg => processPage acc pg (f pg)) (List.range MAX_PAGES)
    (fun _ _ _ hacc => processPage_names hacc) results H
  exact h

lemma runPagesUpTo_names {results : List Entry} {f : Nat → List Item} {j : Nat}
    (H : ∀ e ∈ results, e.name ≠ "") : ∀ e ∈ runPagesUpTo results f j, e.name ≠ "" := by
  have h := foldl_pres (fun l => ∀ e ∈ l, e.name ≠ "")
    (fun acc pg => processPage acc pg (f pg)) (List.range (min j MAX_PAGES))
    (fun _ _ _ hacc => processPage_names hacc) results H
  exact h

lemma runPages_distinct {results : List Entry} {f : Nat → List Item}
    (H : DistinctNamePhone results) : DistinctNamePhone (runPages results f) := by
  have h := foldl_pres DistinctNamePhone
    (fun acc pg => processPage acc pg (f pg)) (List.range MAX_PAGES)
    (fun _ _ _ hacc => processPage_distinct hacc) results H
  exact h

lemma runPagesUpTo_distinct {results : List Entry} {f : Nat → List Item} {j : Nat}
    (H : DistinctNamePhone results) : DistinctNamePhone (runPagesUpTo results f j) := by
  have h := foldl_pres DistinctNamePhone
    (fun acc pg => processPage acc pg (f pg)) (List.range (min j MAX_PAGES))
    (fun _ _ _ hacc => processPage_distinct hacc) results H
  exact h

lemma runPages_bound {results : List Entry} {f : Nat → List Item}
    (H : ∀ e ∈ results, 1 ≤ e.source_page ∧ e.source_page ≤ MAX_PAGES) :
    ∀ e ∈ runPages results f, 1 ≤ e.source_page ∧ e.source_page ≤ MAX_PAGES := by
  refine foldl_pres (fun l => ∀ e ∈ l, 1 ≤ e.source_page ∧ e.source_page ≤ MAX_PAGES)
    _ (List.range MAX_PAGES) ?_ results H
  intro acc k hk hacc e he
  have hklt : k < MAX_PAGES := List.mem_range.mp hk
  rcases processPage_mem he with h1 | h1
  · exact hacc e h1
  · omega

lemma runPagesUpTo_bound {results : List Entry} {f : Nat → List Item} {j : Nat}
    (H : ∀ e ∈ results, 1 ≤ e.source_page ∧ e.source_page ≤ MAX_PAGES) :
    ∀ e ∈ runPagesUpTo results f j, 1 ≤ e.source_page ∧ e.source_page ≤ MAX_PAGES := by
  refine foldl_pres (fun l => ∀ e ∈ l, 1 ≤ e.source_page ∧ e.source_page ≤ MAX_PAGES)
    _ (List.range (min j MAX_PAGES)) ?_ results H
  intro acc k hk hacc e he
  have hklt : k < min j MAX_PAGES := List.mem_range.mp hk
  rcases processPage_mem he with h1 | h1
  · exact hacc e h1
  · omega

lemma scrapeGo_distinct :
    ∀ (outcomes : List AttemptOutcome) (q n : String) (results : List Entry),
      DistinctNamePhone results →
      DistinctNamePhone (scrapeGo q n outcomes results).1 ∧
      (∀ p l, (scrapeGo q n outcomes results).2.2 = some (p, l) → DistinctNamePhone l) := by
  intro outcomes
  induction outcomes with
  | nil =>
    intro q n results _
    constructor
    · exact List.Pairwise.nil
    · intro p l h
      exact absurd h (by simp [scrapeGo])
  | cons o rest ih =>
    intro q n results H
    cases o with
    | ok f =>
      constructor
      · exact runPages_distinct H
      · intro p l h
        simp only [scrapeGo, Option.some.injEq, Prod.mk.injEq] at h
        rw [← h.2]
        exact runPages_distinct H
    | fail j f =>
      exact ih q n _ (runPagesUpTo_distinct H)

lemma scrapeGo_names :
    ∀ (outcomes : List AttemptOutcome) (q n : String) (results : List Entry),
      (∀ e ∈ results, e.name ≠ "") →
      (∀ e ∈ (scrapeGo q n outcomes results).1, e.name ≠ "") ∧
      (∀ p l, (scrapeGo q n outcomes results).2.2 = some (p, l) →
        ∀ e ∈ l, e.name ≠ "") := by
  intro outcomes
  induction outcomes with
  | nil =>
    intro q n results _
    constructor
    · intro e he
      exact absurd he (by simp [scrapeGo])
    · intro p l h
      exact absurd h (by simp [scrapeGo])
  | cons o rest ih =>
    intro q n results H
    cases o with
    | ok f =>
      constructor
      · exact runPages_names H
      · intro p l h
        simp only [scrapeGo, Option.some.injEq, Prod.mk.injEq] at h
        rw [← h.2]
        exact runPages_names H
    | fail j f =>
      exact ih q n _ (runPagesUpTo_names H)

lemma scrapeGo_bound :
    ∀ (outcomes : List AttemptOutcome) (q n : String) (results : List Entry),
      (∀ e ∈ results, 1 ≤ e.source_page ∧ e.source_page ≤ MAX_PAGES) →
      ∀ e ∈ (scrapeGo q n outcomes results).1,
        1 ≤ e.source_page ∧ e.source_page ≤ MAX_PAGES := by
  intro outcomes
  induction outcomes with
  | nil =>
    intro q n results _ e he
    exact absurd he (by simp [scrapeGo])
  | cons o rest ih =>
    intro q n results H
    cases o with
    | ok f => exact runPages_bound H
    | fail j f => exact ih q n _ (runPagesUpTo_bound H)

lemma digitCount_cons_pos {c : Char} (s : List Char) (h : c.isDigit = true) :
    digitCount (c :: s) = digitCount s + 1 := by
  simp [digitCount, List.filter_cons, h]

lemma digitCount_cons_le (c : Char) (s : List Char) :
    digitCount s ≤ digitCount (c :: s) := by
  by_cases h : c.isDigit
  · rw [digitCount_cons_pos s h]
    omega
  · simp [digitCount, List.filter_cons, h]

lemma dropDigits_count :
    ∀ (n : Nat) (s r : List Char), dropDigits n s = some r →
      digitCount s = n + digitCount r := by
  intro n
  induction n with
  | zero =>
    intro s r h
    simp only [dropDigits, Option.some.injEq] at h
    rw [h, Nat.zero_add]
  | succ n ih =>
    intro s r h
    cases s with
    | nil => exact absurd h (by simp [dropDigits])
    | cons c rest =>
      unfold dropDigits at h
      split at h
      · next hd => rw [digitCount_cons_pos rest hd, ih rest r h]; omega
      · exact absurd h (by simp)

lemma mem_digitCands :
    ∀ (j : Nat) {lo : Nat} {s r : List Char}, r ∈ digitCands lo j s →
      ∃ n, lo ≤ n ∧ dropDigits n s = some r := by
  intro j
  induction j with
  | zero =>
    intro lo s r h
    unfold digitCands at h
    split at h
    · next hlo =>
      refine ⟨0, by omega, ?_⟩
      rw [List.mem_singleton.mp h]
      rfl
    · exact absurd h (by simp)
  | succ j ih =>
    intro lo s r h
    unfold digitCands at h
    split at h
    · exact absurd h (by simp)
    · next hlt =>
      rcases List.mem_append.mp h with h1 | h1
      · refine ⟨j + 1, by omega, ?_⟩
        exact (Option.mem_toList.mp h1)
      · exact ih h1

lemma digitCands_count {lo j : Nat} {s r : List Char} (h : r ∈ digitCands lo j s) :
    lo + digitCount r ≤ digitCount s := by
  obtain ⟨n, hn, hd⟩ := mem_digitCands j h
  rw [dropDigits_count n s r hd]
  omega

lemma optCands_count {p : Char → Bool} {s r : List Char} (h : r ∈ optCands p s) :
    digitCount r ≤ digitCount s := by
  cases s with
  | nil =>
    simp only [optCands, List.mem_singleton] at h
    exact le_of_eq (congrArg digitCount h)
  | cons c rest =>
    simp only [optCands] at h
    split at h
    · rcases List.mem_cons.mp h with h1 | h1
      · rw [h1]; exact digitCount_cons_le c rest
      · exact le_of_eq (congrArg digitCount (List.mem_singleton.mp h1))
    · exact le_of_eq (congrArg digitCount (List.mem_singleton.mp h))

lemma phoneCands_count {s r : List Char} (h : r ∈ phoneCands s) :
    4 + digitCount r ≤ digitCount s := by
  simp only [phoneCands, List.mem_flatMap] at h
  obtain ⟨s1, hs1, s2, hs2, s3, hs3, s4, hs4, s5, hs5, s6, hs6, s7, hs7, s8, hs8, s9, hs9, hr⟩ := h
  have c1 := optCands_count hs1
  have c2 := digitCands_count hs2
  have c3 := optCands_count hs3
  have c4 := optCands_count hs4
  have c5 := digitCands_count hs5
  have c6 := optCands_count hs6
  have c7 := optCands_count hs7
  have c8 := digitCands_count hs8
  have c9 := optCands_count hs9
  have c10 := digitCands_count hr
  omega

lemma phoneMatchAt_digits {s m : List Char} (h : phoneMatchAt s = some m) :
    4 ≤ digitCount s := by
  unfold phoneMatchAt at h
  cases hps : phoneCands s with
  | nil => rw [hps] at h; exact absurd h (by simp)
  | cons rem t =>
    have hmem : rem ∈ phoneCands s := by rw [hps]; exact List.mem_cons_self _ _
    have := phoneCands_count hmem
    omega

lemma phoneSearchL_digits : ∀ {l m : List Char}, phoneSearchL l = some m → 4 ≤ digitCount l := by
  intro l
  induction l with
  | nil => intro m h; exact absurd h (by simp [phoneSearchL])
  | cons c rest ih =>
    intro m h
    unfold phoneSearchL at h
    split at h
    · next m0 hm0 => exact phoneMatchAt_digits hm0
    · have h1 := ih h
      have h2 := digitCount_cons_le c rest
      omega

lemma parseUnsigned_sound {s n r : List Char} (h : parseUnsigned s = some (n, r)) :
    ∃ d e, d ≠ [] ∧ d.all Char.isDigit ∧ e ≠ [] ∧ e.all Char.isDigit ∧
      s = d ++ '.' :: e ++ r ∧ n = d ++ '.' :: e := by
  unfold parseUnsigned at h
  split at h
  · exact absurd h (by simp)
  · next hne1 =>
    split at h
    · next s3 hdw =>
      split at h
      · exact absurd h (by simp)
      · next hne2 =>
        simp only [Option.some.injEq, Prod.mk.injEq] at h
        refine ⟨s.takeWhile Char.isDigit, s3.takeWhile Char.isDigit, ?_, ?_, ?_, ?_, ?_, h.1.symm⟩
        · intro habs; exact hne1 (by rw [habs]; rfl)
        · exact List.all_eq_true.mpr fun x hx => List.mem_takeWhile_imp hx
        · intro habs; exact hne2 (by rw [habs]; rfl)
        · exact List.all_eq_true.mpr fun x hx => List.mem_takeWhile_imp hx
        · conv_lhs => rw [← List.takeWhile_append_dropWhile Char.isDigit s]
          rw [hdw, ← h.2]
          conv_lhs => rw [← List.takeWhile_append_dropWhile Char.isDigit s3]
          simp [List.cons_append, List.append_assoc]
    · exact absurd h (by simp)

lemma parseNum_sound {s n r : List Char} (h : parseNum s = some (n, r)) :
    ∃ sign d e, (sign = [] ∨ sign = ['-']) ∧ d ≠ [] ∧ d.all Char.isDigit ∧
      e ≠ [] ∧ e.all Char.isDigit ∧
      s = sign ++ d ++ '.' :: e ++ r ∧ n = sign ++ d ++ '.' :: e := by
  unfold parseNum at h
  split at h
  · next t =>
    split at h
    · next n0 r0 hu =>
      simp only [Option.some.injEq, Prod.mk.injEq] at h
      obtain ⟨d, e, hd, hda, he, hea, ht, hn0⟩ := parseUnsigned_sound hu
      refine ⟨['-'], d, e, Or.inr rfl, hd, hda, he, hea, ?_, ?_⟩
      · rw [← h.2, ht]; rfl
      · rw [← h.1, hn0]; rfl
    · exact absurd h (by simp)
  · obtain ⟨d, e, hd, hda, he, hea, hs, hn⟩ := parseUnsigned_sound h
    exact ⟨[], d, e, Or.inl rfl, hd, hda, he, hea, by rw [hs]; rfl, by rw [hn]; rfl⟩

lemma coordMatchAt_sound {s a b : List Char} (h : coordMatchAt s = some (a, b)) :
    ∃ sign1 d1 e1 sign2 d2 e2 post,
      s = sign1 ++ d1 ++ '.' :: e1 ++ ',' :: (sign2 ++ d2 ++ '.' :: e2 ++ post) ∧
      (sign1 = [] ∨ sign1 = ['-']) ∧ d1 ≠ [] ∧ d1.all Char.isDigit ∧
      e1 ≠ [] ∧ e1.all Char.isDigit ∧
      (sign2 = [] ∨ sign2 = ['-']) ∧ d2 ≠ [] ∧ d2.all Char.isDigit ∧
      e2 ≠ [] ∧ e2.all Char.isDigit := by
  unfold coordMatchAt at h
  split at h
  · exact absurd h (by simp)
  · next a0 r1 h1 =>
    split at h
    · next r2 =>
      split at h
      · exact absurd h (by simp)
      · next b0 r3 h3 =>
        simp only [Option.some.injEq, Prod.mk.injEq] at h
        obtain ⟨s1, d1, e1, hsg1, hd1, hd1a, he1, he1a, hs, ha⟩ := parseNum_sound h1
        obtain ⟨s2, d2, e2, hsg2, hd2, hd2a, he2, he2a, hr2, hb⟩ := parseNum_sound h3
        refine ⟨s1, d1, e1, s2, d2, e2, r3,
          ?_, hsg1, hd1, hd1a, he1, he1a, hsg2, hd2, hd2a, he2, he2a⟩
        rw [hs, hr2]
    · exact absurd h (by simp)

lemma coordSearch_sound :
    ∀ {l a b : List Char}, coordSearch l = some (a, b) →
      ∃ pre tail, l = pre ++ '@' :: tail ∧ coordMatchAt tail = some (a, b) := by
  intro l
  induction l with
  | nil => intro a b h; exact absurd h (by simp [coordSearch])
  | cons c rest ih =>
    intro a b h
    unfold coordSearch at h
    split at h
    · next hc =>
      split at h
      · next ab hm =>
        simp only [Option.some.injEq] at h
        refine ⟨[], rest, by rw [hc]; rfl, ?_⟩
        rw [hm, h]
      · obtain ⟨pre, tail, hl, hcm⟩ := ih h
        exact ⟨c :: pre, tail, by rw [List.cons_append, hl], hcm⟩
    · obtain ⟨pre, tail, hl, hcm⟩ := ih h
      exact ⟨c :: pre, tail, by rw [List.cons_append, hl], hcm⟩

lemma extract_coordinates_sound {u : String} (h : extract_coordinates u ≠ (none, none)) :
    HasLatLon u := by
  unfold extract_coordinates at h
  cases hcs : coordSearch u.toList with
  | none => rw [hcs] at h; exact absurd rfl h
  | some ab =>
    obtain ⟨a, b⟩ := ab
    obtain ⟨pre, tail, hl, hcm⟩ := coordSearch_sound hcs
    obtain ⟨s1, d1, e1, s2, d2, e2, post, heq, hsg1, hd1, hd1a, he1, he1a,
      hsg2, hd2, hd2a, he2, he2a⟩ := coordMatchAt_sound hcm
    exact ⟨pre, s1, d1, e1, s2, d2, e2, post, by rw [hl, heq],
      hsg1, hd1, hd1a, he1, he1a, hsg2, hd2, hd2a, he2, he2a⟩

lemma hasLatLon_length {u : String} (h : HasLatLon u) : 8 ≤ u.toList.length := by
  obtain ⟨pre, s1, d1, e1, s2, d2, e2, post, heq, _, hd1, _, he1, _, _, hd2, _, he2, _⟩ := h
  rw [heq]
  simp only [List.length_append, List.length_cons]
  have h1 := List.length_pos.mpr hd1
  have h2 := List.length_pos.mpr he1
  have h3 := List.length_pos.mpr hd2
  have h4 := List.length_pos.mpr he2
  omega

lemma noLatLon_x : ¬ HasLatLon "x" := by
  intro h
  have h1 := hasLatLon_length h
  have h2 : ("x".toList).length = 1 := rfl
  omega

lemma scrapeGo_carry :
    ∀ (outcomes : List AttemptOutcome) (q n : String) (results : List Entry) (e : Entry),
      e ∈ results →
      ∀ p l, (scrapeGo q n outcomes results).2.2 = some (p, l) →
        e ∈ l ∧ e ∈ (scrapeGo q n outcomes results).1 := by
  intro outcomes
  induction outcomes with
  | nil =>
    intro q n results e _ p l h
    exact absurd h (by simp [scrapeGo])
  | cons o rest ih =>
    intro q n results e he p l h
    cases o with
    | ok f =>
      simp only [scrapeGo, Option.some.injEq, Prod.mk.injEq] at h
      obtain ⟨t, ht⟩ := runPages_app results f
      have hmem : e ∈ runPages results f := by
        rw [ht]
        exact List.mem_append_left _ he
      constructor
      · rw [← h.2]; exact hmem
      · exact hmem
    | fail j f =>
      have he2 : e ∈ runPagesUpTo results f j := by
        obtain ⟨t, ht⟩ := runPagesUpTo_app results f j
        rw [ht]
        exact List.mem_append_left _ he
      exact ih q n _ e he2 p l h

lemma slug_all :
    ∀ (cs : List Char) (acc : List Char × Bool), acc.1.all isSlugChar = true →
      ((cs.foldl slugStep acc).1).all isSlugChar = true := by
  intro cs
  induction cs with
  | nil => intro acc h; exact h
  | cons c rest ih =>
    intro acc h
    rw [List.foldl_cons]
    apply ih
    unfold slugStep
    split
    · next hc => simp [List.all_append, h, hc]
    · split
      · exact h
      · have hd : isSlugChar '-' = true := by decide
        simp [List.all_append, h, hd]

/-- Claim C1 (amended): the deduplication invariant holds — no two records in
the returned or serialized list agree on both name and phone, and a candidate
identical to a stored record in both fields leaves the list unchanged — but a
candidate differing from every stored record is retained only when its
extracted name is non-empty (the `if name:` guard at line 161). -/
theorem C1_dedup :
    (∀ query now outcomes, DistinctNamePhone (scrape_google_search query now outcomes).1)
    ∧ (∀ query now outcomes p l,
        (scrape_google_search query now outcomes).2.2 = some (p, l) → DistinctNamePhone l)
    ∧ (∀ results k item entry, extractEntry k item = some entry →
        (∃ r ∈ results, r.name = entry.name ∧ r.phone = entry.phone) →
        processItem results k item = results)
    ∧ (∀ results k item entry, extractEntry k item = some entry → entry.name ≠ "" →
        (∀ r ∈ results, ¬(r.name = entry.name ∧ r.phone = entry.phone)) →
        processItem results k item = results ++ [entry]) := by
  refine ⟨?_, ?_, ?_, ?_⟩
  · intro query now outcomes
    exact (scrapeGo_distinct (outcomes.take RETRIES) query now [] List.Pairwise.nil).1
  · intro query now outcomes p l h
    exact (scrapeGo_distinct (outcomes.take RETRIES) query now [] List.Pairwise.nil).2 p l h
  · intro results k item entry he hr
    exact processItem_dup he hr
  · intro results k item entry he hn hr
    exact processItem_new he hn hr

/-- Witness for C1_dedup: a fresh candidate with a non-empty name is appended
to the empty results list. -/
theorem C1_dedup_witness : processItem [] 0 itemNamed = [] ++ [entryNamed] :=
  C1_dedup.2.2.2 [] 0 itemNamed entryNamed (by decide) (by decide)
    (fun r hr => absurd hr (List.not_mem_nil r))

/-- Counterexample to C1 as stated: itemEmptyName and itemNamed yield
candidate entries that differ in the name field, yet only one of them is
retained — the empty-name candidate is dropped even though no stored record
matches it, so candidates differing in either field are NOT always both
retained. -/
theorem C1_counterexample :
    extractEntry 0 itemEmptyName = some entryEmptyName ∧
    extractEntry 0 itemNamed = some entryNamed ∧
    entryEmptyName.name ≠ entryNamed.name ∧
    runPages [] pageBoth = [entryNamed] ∧
    entryEmptyName ∉ runPages [] pageBoth := by decide

/-- Claim C2 (amended): a failed attempt does NOT discard the records gathered
within it. The accumulated results list is initialised once (line 59), outside
the retry loop, and the handler at lines 180-183 simply continues, so records
parsed during a failed attempt stay accumulated and appear in the final
returned list and in the saved file of any later successful attempt. -/
theorem C2_carryover :
    ∀ (query now : String) (j : Nat) (f : Nat → List Item)
      (rest : List AttemptOutcome) (results : List Entry),
      scrapeGo query now (AttemptOutcome.fail j f :: rest) results
        = scrapeGo query now rest (runPagesUpTo results f j)
      ∧ ∀ e ∈ runPagesUpTo results f j,
          ∀ p l, (scrapeGo query now rest (runPagesUpTo results f j)).2.2 = some (p, l) →
            e ∈ l ∧ e ∈ (scrapeGo query now rest (runPagesUpTo results f j)).1 := by
  intro query now j f rest results
  refine ⟨rfl, ?_⟩
  intro e he p l h
  exact scrapeGo_carry rest query now _ e he p l h

/-- Witness for C2_carryover: the record gathered in the failed first attempt
is still present in the list returned by the successful second attempt. -/
theorem C2_carryover_witness :
    entryCafe ∈ (scrapeGo "q" "t" [AttemptOutcome.ok emptyPages]
      (runPagesUpTo [] cafePages 1)).1 :=
  ((C2_carryover "q" "t" 1 cafePages [AttemptOutcome.ok emptyPages] []).2 entryCafe
    (by decide) "data/q-search-t.json" [entryCafe] (by decide)).2

/-- Counterexample to C2 as stated: entryCafe is parsed during attempt 1,
which fails after its first page; attempt 2 succeeds finding nothing, yet the
final returned list and the saved file still contain entryCafe. -/
theorem C2_counterexample :
    runPagesUpTo [] cafePages 1 = [entryCafe] ∧
    scrape_google_search "q" "t"
        [AttemptOutcome.fail 1 cafePages, AttemptOutcome.ok emptyPages]
      = ([entryCafe], "q-search-t.json", some ("data/q-search-t.json", [entryCafe])) ∧
    entryCafe ∈ (scrape_google_search "q" "t"
        [AttemptOutcome.fail 1 cafePages, AttemptOutcome.ok emptyPages]).1 := by decide

/-- Claim C3 (amended): the slug is the query lowercased with every run of
characters outside `[a-z0-9-]` collapsed to a single hyphen; leading and
trailing hyphens are NOT stripped, so the query with a trailing `!` gets a
trailing hyphen. Every character of the slug lies in `[a-z0-9-]`. -/
theorem C3_slug :
    safeName "Restaurants In Rabat!" = "restaurants-in-rabat-"
    ∧ fileName "Restaurants In Rabat!" "2025-01-01-00-00"
        = "restaurants-in-rabat--search-2025-01-01-00-00.json"
    ∧ ∀ q : String, ((safeName q).toList.all isSlugChar) = true := by
  refine ⟨by decide, by decide, ?_⟩
  intro q
  unfold safeName
  exact slug_all (q.toList.map Char.toLower) ([], false) rfl

/-- Counterexample to C3 as stated: the code keeps the trailing hyphen, so the
slug of the spec's example query is not "restaurants-in-rabat". -/
theorem C3_counterexample :
    safeName "Restaurants In Rabat!" = "restaurants-in-rabat-" ∧
    safeName "Restaurants In Rabat!" ≠ "restaurants-in-rabat" := by decide

/-- Claim C4 (amended): on text containing "+212 5 37 77 12 34" the leftmost
match of PHONE_REGEX is "+212 5 37 77" — the pattern spans at most four digit
groups, so it never matches the whole number; a text with fewer than four
digit characters produces no match, while four digits already suffice, so
texts with no run of seven or more digits can still produce a match. -/
theorem C4_phone :
    PHONE_REGEX_search "+212 5 37 77 12 34" = some "+212 5 37 77"
    ∧ PHONE_REGEX_search "1234" = some "1234"
    ∧ ∀ t : String, digitCount t.toList < 4 → PHONE_REGEX_search t = none := by
  refine ⟨by decide, by decide, ?_⟩
  intro t h
  unfold PHONE_REGEX_search
  cases hs : phoneSearchL t.toList with
  | none => rfl
  | some m =>
    have := phoneSearchL_digits hs
    omega

/-- Witness for C4_phone: a text with fewer than four digit characters yields
no phone match. -/
theorem C4_phone_witness :
    PHONE_REGEX_search "no phone" = none ∧ digitCount ("no phone".toList) < 4 :=
  ⟨C4_phone.2.2 "no phone" (by decide), by decide⟩

/-- Counterexample to C4 as stated: on the text "+212 5 37 77 12 34" itself the
matched substring is a proper prefix, not the whole number; and "1234", which
contains no run of seven or more digits, still produces a match. -/
theorem C4_counterexample :
    PHONE_REGEX_search "+212 5 37 77 12 34" = some "+212 5 37 77" ∧
    some "+212 5 37 77" ≠ some "+212 5 37 77 12 34" ∧
    PHONE_REGEX_search "1234" = some "1234" ∧
    digitCount ("1234".toList) < 7 := by decide

/-- Claim C5: when all RETRIES attempts raise an exception, the function
returns the empty list with the sentinel filename "failed", and no output
file is written (the third component of the result is none). -/
theorem C5_exhausted :
    ∀ (query now : String) (j1 j2 j3 : Nat) (f1 f2 f3 : Nat → List Item),
      scrape_google_search query now
        [AttemptOutcome.fail j1 f1, AttemptOutcome.fail j2 f2, AttemptOutcome.fail j3 f3]
        = ([], "failed", none) := by
  intro query now j1 j2 j3 f1 f2 f3
  rfl

/-- Claim C6: extract_coordinates returns the two coordinate strings for the
spec's example URL, and returns (none, none) for any URL with no `@lat,lon`
segment. -/
theorem C6_coordinates :
    extract_coordinates coordURL = (some "34.020100", some "-6.841200")
    ∧ ∀ u : String, ¬ HasLatLon u → extract_coordinates u = (none, none) := by
  refine ⟨by decide, ?_⟩
  intro u h
  by_contra hne
  exact h (extract_coordinates_sound hne)

/-- Witness for C6_coordinates: the single-character URL "x" has no `@lat,lon`
segment, and extract_coordinates returns no values on it. -/
theorem C6_coordinates_witness : extract_coordinates "x" = (none, none) :=
  C6_coordinates.2 "x" noLatLon_x

/-- Claim C7: the stored name of every extracted entry is its heading text,
truncated to the first 50 characters followed by "..." when the heading is
strictly longer than 50 characters, and unchanged otherwise. -/
theorem C7_truncation :
    ∀ (k : Nat) (item : Item) (e : Entry), extractEntry k item = some e →
      ∃ raw, headTag item = some raw ∧
        (50 < raw.length → e.name = raw.take 50 ++ "...") ∧
        (raw.length ≤ 50 → e.name = raw) := by
  intro k item e he
  unfold extractEntry at he
  cases hh : headTag item <;> rw [hh] at he
  · exact absurd he (by simp)
  · next raw =>
    simp only [Option.some.injEq] at he
    refine ⟨raw, rfl, ?_, ?_⟩
    · intro hlen
      rw [← he]
      show (if raw.length > 50 then raw.take 50 ++ "..." else raw) = raw.take 50 ++ "..."
      rw [if_pos hlen]
    · intro hlen
      rw [← he]
      show (if raw.length > 50 then raw.take 50 ++ "..." else raw) = raw
      rw [if_neg (by omega)]

set_option maxRecDepth 4000 in
/-- Witness for C7_truncation: the 60-character heading of itemLong is stored
as its first 50 characters plus the ellipsis marker. -/
theorem C7_truncation_witness :
    ∃ raw, headTag itemLong = some raw ∧
      (50 < raw.length → entryLong.name = raw.take 50 ++ "...") ∧
      (raw.length ≤ 50 → entryLong.name = raw) :=
  C7_truncation 0 itemLong entryLong (by decide)

/-- Claim C8: each attempt iterates exactly MAX_PAGES = 3 pages with offset
start values 0, 20, 40 in the constructed URLs; every record produced on the
k-th visited page (0-based index k) carries source_page = k + 1, so the
source_page of every returned record lies between 1 and 3. -/
theorem C8_pagination :
    ((List.range MAX_PAGES).map fun k => k * 20) = [0, 20, 40]
    ∧ (List.range MAX_PAGES).map (pageURL "phone number for restaurant in rabat")
        = ["https://www.google.com/search?q=phone+number+for+restaurant+in+rabat&udm=1&start=0",
           "https://www.google.com/search?q=phone+number+for+restaurant+in+rabat&udm=1&start=20",
           "https://www.google.com/search?q=phone+number+for+restaurant+in+rabat&udm=1&start=40"]
    ∧ (∀ k item e, extractEntry k item = some e → e.source_page = k + 1)
    ∧ (∀ results k items e, e ∈ processPage results k items →
        e ∈ results ∨ e.source_page = k + 1)
    ∧ (∀ query now outcomes e, e ∈ (scrape_google_search query now outcomes).1 →
        1 ≤ e.source_page ∧ e.source_page ≤ MAX_PAGES) := by
  refine ⟨by decide, by decide, ?_, ?_, ?_⟩
  · intro k item e he
    exact extractEntry_page he
  · intro results k items e he
    exact processPage_mem he
  · intro query now outcomes e he
    exact scrapeGo_bound (outcomes.take RETRIES) query now []
      (fun e2 he2 => absurd he2 (List.not_mem_nil e2)) e he

/-- Witness for C8_pagination: the record of a concrete successful run has its
source_page within bounds. -/
theorem C8_pagination_witness :
    1 ≤ entryCafe.source_page ∧ entryCafe.source_page ≤ MAX_PAGES :=
  C8_pagination.2.2.2.2 "q" "t" [AttemptOutcome.ok cafePages] entryCafe (by decide)

/-- Claim C9: an item with neither an h3 nor a span yields no entry, and every
record in the returned list or in the saved file has a non-empty name. -/
theorem C9_nonempty_names :
    (∀ k item, item.h3 = none → item.span = none → extractEntry k item = none)
    ∧ (∀ query now outcomes e, e ∈ (scrape_google_search query now outcomes).1 →
        e.name ≠ "")
    ∧ (∀ query now outcomes p l,
        (scrape_google_search query now outcomes).2.2 = some (p, l) →
        ∀ e ∈ l, e.name ≠ "") := by
  refine ⟨?_, ?_, ?_⟩
  · intro k item h3 hsp
    simp [extractEntry, headTag, h3, hsp]
  · intro query now outcomes e he
    exact (scrapeGo_names (outcomes.take RETRIES) query now []
      (fun e2 he2 => absurd he2 (List.not_mem_nil e2))).1 e he
  · intro query now outcomes p l h e he
    exact (scrapeGo_names (outcomes.take RETRIES) query now []
      (fun e2 he2 => absurd he2 (List.not_mem_nil e2))).2 p l h e he

/-- Witness for C9_nonempty_names: the record of a concrete run has a
non-empty name. -/
theorem C9_nonempty_names_witness : entryCafe.name ≠ "" :=
  C9_nonempty_names.2.1 "q" "t" [AttemptOutcome.ok cafePages] entryCafe (by decide)

/-- Claim C10: processing is append-only — stored records are never modified
or reordered, the output always extends the input list — and a candidate that
agrees with some stored record on both name and phone leaves the list
unchanged, so the earliest-encountered record (with all its field values) is
the one retained. -/
theorem C10_first_occurrence :
    (∀ results k item, ∃ t, processItem results k item = results ++ t)
    ∧ (∀ results f, ∃ t, runPages results f = results ++ t)
    ∧ (∀ results f j, ∃ t, runPagesUpTo results f j = results ++ t)
    ∧ (∀ results k item entry, extractEntry k item = some entry →
        (∃ r ∈ results, r.name = entry.name ∧ r.phone = entry.phone) →
        processItem results k item = results) :=
  ⟨processItem_app, runPages_app, runPagesUpTo_app,
    fun _ _ _ _ he hr => processItem_dup he hr⟩

/-- Witness for C10_first_occurrence: a later duplicate of entryCafe (same
name and phone) does not modify the stored list. -/
theorem C10_first_occurrence_witness :
    processItem [entryCafe] 0 itemCafe = [entryCafe] :=
  C10_first_occurrence.2.2.2 [entryCafe] 0 itemCafe entryCafe (by decide) (by decide)

end Scraper
